import Mathlib

/-!
Verification development for the RSSucks feed-reader core: a shallow embedding
of the feed/subscription data model and synchronization engine (src/article.rs,
src/subscription/article.rs, src/feed.rs, src/utils.rs) together with proofs
about the embedded operations.

Modelling conventions:
* Rust `String` is modelled as `List Char` (named `Str`), whose lexicographic
  order mirrors `str::cmp`.
* `chrono::DateTime<Utc>` is modelled as `Int` (a totally ordered timestamp);
  `Option<DateTime<Utc>>` becomes `Option Int` with the derived Rust ordering
  (`None` below every `Some`).
* `uuid::Uuid` (and the wrappers `EntryUuid`, `FolderUuid`) are modelled as
  `Nat`: the claims only need equality and map keying.
* `HashMap` is modelled as an association list with replace-or-append insert,
  `HashSet` as a duplicate-avoiding list, `BTreeSet`/`BTreeMap` as lists
  ordered and keyed by the `ArticleUuid` comparator.
* A Rust `&mut self` method becomes a function returning the new state, paired
  with the method's result; `Err(NotFound)` becomes `none` / `false`.
-/

namespace RSSucks

/-- Rust `String`, modelled as a list of characters. -/
abbrev Str := List Char

/-- Timestamp standing for `chrono::DateTime<Utc>`. -/
abbrev Time := Int

/-- Universally unique identifier for `Entry` (src/feed.rs `EntryUuid`). -/
abbrev EntryUuid := Nat

/-- Universally unique identifier for `Folder` (src/feed.rs `FolderUuid`). -/
abbrev FolderUuid := Nat

/-- Rust `Ord::cmp` for a linearly ordered type. -/
def cmpLin {α : Type} [LinearOrder α] (a b : α) : Ordering :=
  if a < b then .lt else if a = b then .eq else .gt

theorem cmpLin_lt_iff {α : Type} [LinearOrder α] (a b : α) :
    cmpLin a b = .lt ↔ a < b := by
  unfold cmpLin
  rcases lt_trichotomy a b with h | h | h
  · simp [h]
  · simp [h, lt_irrefl]
  · simp [not_lt_of_gt h, ne_of_gt h, not_lt_of_gt h]

theorem cmpLin_eq_iff {α : Type} [LinearOrder α] (a b : α) :
    cmpLin a b = .eq ↔ a = b := by
  unfold cmpLin
  rcases lt_trichotomy a b with h | h | h
  · simp [h, ne_of_lt h]
  · simp [h, lt_irrefl]
  · simp [not_lt_of_gt h, ne_of_gt h]

theorem cmpLin_gt_iff {α : Type} [LinearOrder α] (a b : α) :
    cmpLin a b = .gt ↔ b < a := by
  unfold cmpLin
  rcases lt_trichotomy a b with h | h | h
  · simp [h, not_lt_of_gt h]
  · simp [h, lt_irrefl]
  · simp [not_lt_of_gt h, ne_of_gt h, h]

theorem cmpLin_self {α : Type} [LinearOrder α] (a : α) : cmpLin a a = .eq := by
  simp [cmpLin]

/-- Rust derived `Ord` on `Option<DateTime<Utc>>`: `None` sorts below `Some`. -/
def cmpOptTime : Option Time → Option Time → Ordering
  | none, none => .eq
  | none, some _ => .lt
  | some _, none => .gt
  | some a, some b => cmpLin a b

theorem cmpOptTime_eq_iff (x y : Option Time) : cmpOptTime x y = .eq ↔ x = y := by
  cases x <;> cases y <;> simp [cmpOptTime, cmpLin_eq_iff]

theorem cmpOptTime_self (x : Option Time) : cmpOptTime x x = .eq := by
  cases x <;> simp [cmpOptTime, cmpLin_self]

theorem cmpOptTime_gt_iff (x y : Option Time) :
    cmpOptTime x y = .gt ↔ cmpOptTime y x = .lt := by
  cases x <;> cases y <;> simp [cmpOptTime, cmpLin_gt_iff, cmpLin_lt_iff]

theorem cmpOptTime_lt_trans {x y z : Option Time} (h1 : cmpOptTime x y = .lt)
    (h2 : cmpOptTime y z = .lt) : cmpOptTime x z = .lt := by
  cases x <;> cases y <;> cases z <;>
    simp_all [cmpOptTime, cmpLin_lt_iff]
  exact lt_trans h1 h2

/-- Universally unique identifier for `Article`
(src/subscription/article.rs and src/article.rs, struct `ArticleUuid`). -/
structure ArticleUuid where
  updated : Option Time
  published : Option Time
  feed_id : EntryUuid
  id : Str
deriving DecidableEq

/-- Constructor `ArticleUuid::new` (src/article.rs lines 34-48,
identical in src/subscription/article.rs). -/
def ArticleUuid.new (update : Option Time) (publish : Option Time)
    (feed_id : EntryUuid) (id : Str) : ArticleUuid :=
  { updated := update, published := publish, feed_id := feed_id, id := id }

/-- The comparator on `ArticleUuid`: `impl Ord for ArticleUuid`
(src/subscription/article.rs lines 20-32), the variant used by the
subscription module. It compares `other.updated` against `self.updated`
(descending, with the derived `Option` order), then `other.published`
against `self.published`, and finally `self.id` against `other.id`.
The `feed_id` field is never inspected. -/
def ArticleUuid.cmp (self other : ArticleUuid) : Ordering :=
  match cmpOptTime other.updated self.updated with
  | .eq =>
    match cmpOptTime other.published self.published with
    | .eq => cmpLin self.id other.id
    | .gt => .gt
    | .lt => .lt
  | .gt => .gt
  | .lt => .lt

theorem ArticleUuid.cmp_eq_iff (a b : ArticleUuid) :
    a.cmp b = .eq ↔ a.updated = b.updated ∧ a.published = b.published ∧ a.id = b.id := by
  unfold ArticleUuid.cmp
  cases h1 : cmpOptTime b.updated a.updated with
  | lt =>
    constructor
    · intro h; exact Ordering.noConfusion h
    · rintro ⟨hux, -, -⟩
      rw [hux, cmpOptTime_self] at h1
      exact absurd h1 (by decide)
  | gt =>
    constructor
    · intro h; exact Ordering.noConfusion h
    · rintro ⟨hux, -, -⟩
      rw [hux, cmpOptTime_self] at h1
      exact absurd h1 (by decide)
  | eq =>
    have hu : b.updated = a.updated := (cmpOptTime_eq_iff _ _).mp h1
    cases h2 : cmpOptTime b.published a.published with
    | lt =>
      constructor
      · intro h; exact Ordering.noConfusion h
      · rintro ⟨-, hpx, -⟩
        rw [hpx, cmpOptTime_self] at h2
        exact absurd h2 (by decide)
    | gt =>
      constructor
      · intro h; exact Ordering.noConfusion h
      · rintro ⟨-, hpx, -⟩
        rw [hpx, cmpOptTime_self] at h2
        exact absurd h2 (by decide)
    | eq =>
      have hp : b.published = a.published := (cmpOptTime_eq_iff _ _).mp h2
      simp [hu, hp, cmpLin_eq_iff]

theorem ArticleUuid.cmp_self (a : ArticleUuid) : a.cmp a = .eq := by
  rw [ArticleUuid.cmp_eq_iff]
  exact ⟨rfl, rfl, rfl⟩

theorem ArticleUuid.cmp_eq_trans {a b c : ArticleUuid} (h1 : a.cmp b = .eq)
    (h2 : b.cmp c = .eq) : a.cmp c = .eq := by
  rw [ArticleUuid.cmp_eq_iff] at h1 h2 ⊢
  exact ⟨h1.1.trans h2.1, h1.2.1.trans h2.2.1, h1.2.2.trans h2.2.2⟩

/-- Characterization of the strict part of the comparator as a lexicographic
comparison (updated descending, then published descending, then id ascending). -/
theorem ArticleUuid.cmp_lt_iff (a b : ArticleUuid) :
    a.cmp b = .lt ↔
      cmpOptTime b.updated a.updated = .lt ∨
      (b.updated = a.updated ∧
        (cmpOptTime b.published a.published = .lt ∨
          (b.published = a.published ∧ a.id < b.id))) := by
  unfold ArticleUuid.cmp
  cases h1 : cmpOptTime b.updated a.updated with
  | lt => simp
  | gt =>
    have : b.updated ≠ a.updated := fun h => by
      rw [h, cmpOptTime_self] at h1; exact absurd h1 (by decide)
    simp [this]
  | eq =>
    have hu : b.updated = a.updated := (cmpOptTime_eq_iff _ _).mp h1
    cases h2 : cmpOptTime b.published a.published with
    | lt => simp [hu]
    | gt =>
      have : b.published ≠ a.published := fun h => by
        rw [h, cmpOptTime_self] at h2; exact absurd h2 (by decide)
      simp [hu, this]
    | eq =>
      have hp : b.published = a.published := (cmpOptTime_eq_iff _ _).mp h2
      simp [hu, hp, cmpLin_lt_iff]

theorem ArticleUuid.cmp_gt_iff (a b : ArticleUuid) :
    a.cmp b = .gt ↔ b.cmp a = .lt := by
  unfold ArticleUuid.cmp
  cases h1 : cmpOptTime b.updated a.updated with
  | lt =>
    have h1s : cmpOptTime a.updated b.updated = .gt := (cmpOptTime_gt_iff _ _).mpr h1
    simp [h1s]
  | gt =>
    have h1s : cmpOptTime a.updated b.updated = .lt := (cmpOptTime_gt_iff _ _).mp h1
    simp [h1s]
  | eq =>
    have hu : b.updated = a.updated := (cmpOptTime_eq_iff _ _).mp h1
    have h1s : cmpOptTime a.updated b.updated = .eq :=
      (cmpOptTime_eq_iff _ _).mpr hu.symm
    simp only [h1s]
    cases h2 : cmpOptTime b.published a.published with
    | lt =>
      have h2s : cmpOptTime a.published b.published = .gt := (cmpOptTime_gt_iff _ _).mpr h2
      simp [h2s]
    | gt =>
      have h2s : cmpOptTime a.published b.published = .lt := (cmpOptTime_gt_iff _ _).mp h2
      simp [h2s]
    | eq =>
      have hp : b.published = a.published := (cmpOptTime_eq_iff _ _).mp h2
      have h2s : cmpOptTime a.published b.published = .eq :=
        (cmpOptTime_eq_iff _ _).mpr hp.symm
      simp [h2s, cmpLin_gt_iff, cmpLin_lt_iff]

theorem ArticleUuid.cmp_lt_trans {a b c : ArticleUuid} (h1 : a.cmp b = .lt)
    (h2 : b.cmp c = .lt) : a.cmp c = .lt := by
  rw [ArticleUuid.cmp_lt_iff] at h1 h2 ⊢
  rcases h1 with h1 | ⟨hu1, h1⟩
  · rcases h2 with h2 | ⟨hu2, h2⟩
    · exact Or.inl (cmpOptTime_lt_trans h2 h1)
    · exact Or.inl (hu2 ▸ h1)
  · rcases h2 with h2 | ⟨hu2, h2⟩
    · exact Or.inl (hu1 ▸ h2)
    · refine Or.inr ⟨hu2.trans hu1, ?_⟩
      rcases h1 with hp1 | ⟨hpe1, hid1⟩
      · rcases h2 with hp2 | ⟨hpe2, hid2⟩
        · exact Or.inl (cmpOptTime_lt_trans hp2 hp1)
        · exact Or.inl (hpe2 ▸ hp1)
      · rcases h2 with hp2 | ⟨hpe2, hid2⟩
        · exact Or.inl (hpe1 ▸ hp2)
        · exact Or.inr ⟨hpe2.trans hpe1, lt_trans hid1 hid2⟩

/-- Model of `BTreeSet<ArticleUuid>::contains`: some element compares `Equal`
to the key under the `ArticleUuid` comparator. -/
def btreeContains (s : List ArticleUuid) (a : ArticleUuid) : Bool :=
  s.any (fun b => a.cmp b == .eq)

/-- Model of `BTreeSet<ArticleUuid>::insert`: place the element at its ordered
position, leaving the set unchanged when an element comparing `Equal` is met. -/
def btreeInsert (s : List ArticleUuid) (a : ArticleUuid) : List ArticleUuid :=
  match s with
  | [] => [a]
  | b :: t =>
    match a.cmp b with
    | .lt => a :: b :: t
    | .eq => b :: t
    | .gt => b :: btreeInsert t a

/-- Model of `BTreeMap<ArticleUuid, _>` lookup: the value at the first key
comparing `Equal`. -/
def btreeMapLookup {α : Type} (m : List (ArticleUuid × α)) (k : ArticleUuid) : Option α :=
  match m with
  | [] => none
  | p :: t => if k.cmp p.1 = .eq then some p.2 else btreeMapLookup t k

/-- Model of `BTreeMap<ArticleUuid, _>::insert`: replace the value at an
`Equal` key (the stored key is kept, as in Rust), else add the pair. -/
def btreeMapInsert {α : Type} (m : List (ArticleUuid × α)) (k : ArticleUuid) (v : α) :
    List (ArticleUuid × α) :=
  match m with
  | [] => [(k, v)]
  | p :: t =>
    if k.cmp p.1 = .eq then (p.1, v) :: t else p :: btreeMapInsert t k v

theorem ordBeq_eq_iff (o : Ordering) : (o == Ordering.eq) = true ↔ o = Ordering.eq := by
  cases o <;> decide

theorem btreeContains_iff (s : List ArticleUuid) (a : ArticleUuid) :
    btreeContains s a = true ↔ ∃ b ∈ s, a.cmp b = .eq := by
  simp [btreeContains, List.any_eq_true, ordBeq_eq_iff]

theorem btreeContains_of_mem {s : List ArticleUuid} {a : ArticleUuid} (h : a ∈ s) :
    btreeContains s a = true :=
  (btreeContains_iff s a).mpr ⟨a, h, ArticleUuid.cmp_self a⟩

theorem mem_btreeInsert_of_mem {s : List ArticleUuid} {a b : ArticleUuid} (h : b ∈ s) :
    b ∈ btreeInsert s a := by
  induction s with
  | nil => cases h
  | cons c t ih =>
    unfold btreeInsert
    rcases List.mem_cons.mp h with hbc | hbt
    · cases a.cmp c <;> simp [hbc]
    · cases a.cmp c <;> simp [ih hbt, hbt]

theorem mem_btreeInsert_self {s : List ArticleUuid} {a : ArticleUuid}
    (h : btreeContains s a = false) : a ∈ btreeInsert s a := by
  induction s with
  | nil => simp [btreeInsert]
  | cons c t ih =>
    unfold btreeInsert
    have hhead : (a.cmp c == .eq) = false := by
      by_contra hx
      have : btreeContains (c :: t) a = true := by
        simp only [btreeContains, List.any_cons]
        simp only [Bool.not_eq_false] at hx
        simp [hx]
      rw [this] at h; cases h
    have htail : btreeContains t a = false := by
      by_contra hx
      have : btreeContains (c :: t) a = true := by
        simp only [Bool.not_eq_false] at hx
        simp only [btreeContains, List.any_cons]
        simp [btreeContains] at hx
        simp [hx]
      rw [this] at h; cases h
    cases hac : a.cmp c with
    | lt => simp
    | eq => rw [hac] at hhead; cases hhead
    | gt => simp [ih htail]

theorem mem_of_mem_btreeInsert {s : List ArticleUuid} {a b : ArticleUuid}
    (h : b ∈ btreeInsert s a) : b ∈ s ∨ b = a := by
  induction s with
  | nil => simp [btreeInsert] at h; exact Or.inr h
  | cons c t ih =>
    unfold btreeInsert at h
    cases hac : a.cmp c with
    | lt =>
      rw [hac] at h
      rcases List.mem_cons.mp h with hba | h2
      · exact Or.inr hba
      · exact Or.inl h2
    | eq =>
      rw [hac] at h
      exact Or.inl h
    | gt =>
      rw [hac] at h
      rcases List.mem_cons.mp h with hbc | h2
      · exact Or.inl (by simp [hbc])
      · rcases ih h2 with h3 | h3
        · exact Or.inl (List.mem_cons_of_mem _ h3)
        · exact Or.inr h3

theorem btreeContains_btreeInsert_self (s : List ArticleUuid) (a : ArticleUuid) :
    btreeContains (btreeInsert s a) a = true := by
  induction s with
  | nil => simp [btreeInsert, btreeContains, ArticleUuid.cmp_self, ordBeq_eq_iff]
  | cons c t ih =>
    unfold btreeInsert
    cases hac : a.cmp c with
    | lt => simp [btreeContains, ArticleUuid.cmp_self, ordBeq_eq_iff]
    | eq => simp [btreeContains, hac, ordBeq_eq_iff]
    | gt =>
      simp only [btreeContains, List.any_cons]
      rw [show btreeContains (btreeInsert t a) a = (btreeInsert t a).any
            (fun b => a.cmp b == .eq) from rfl] at ih
      simp [ih]

theorem btreeMapLookup_insert_self {α : Type} (m : List (ArticleUuid × α))
    (k : ArticleUuid) (v : α) : btreeMapLookup (btreeMapInsert m k v) k = some v := by
  induction m with
  | nil => simp [btreeMapInsert, btreeMapLookup, ArticleUuid.cmp_self]
  | cons p t ih =>
    unfold btreeMapInsert
    by_cases hk : k.cmp p.1 = .eq
    · simp [hk, btreeMapLookup]
    · simp [hk, btreeMapLookup, ih]

theorem btreeMapLookup_insert_isSome {α : Type} {m : List (ArticleUuid × α)}
    {x : ArticleUuid} (k : ArticleUuid) (v : α)
    (h : (btreeMapLookup m x).isSome = true) :
    (btreeMapLookup (btreeMapInsert m k v) x).isSome = true := by
  induction m with
  | nil => simp [btreeMapLookup] at h
  | cons p t ih =>
    unfold btreeMapInsert
    unfold btreeMapLookup at h
    by_cases hk : k.cmp p.1 = .eq
    · by_cases hx : x.cmp p.1 = .eq
      · simp [hk, btreeMapLookup, hx]
      · rw [if_neg hx] at h
        simp [hk, btreeMapLookup, hx, h]
    · by_cases hx : x.cmp p.1 = .eq
      · simp [hk, btreeMapLookup, hx]
      · rw [if_neg hx] at h
        simp [hk, btreeMapLookup, hx, ih h]

theorem btreeMapLookup_insert_of_cmp_eq {α : Type} {x k : ArticleUuid}
    (m : List (ArticleUuid × α)) (v : α) (h : x.cmp k = .eq) :
    (btreeMapLookup (btreeMapInsert m k v) x).isSome = true := by
  induction m with
  | nil => simp [btreeMapInsert, btreeMapLookup, h]
  | cons p t ih =>
    unfold btreeMapInsert
    by_cases hk : k.cmp p.1 = .eq
    · have hx : x.cmp p.1 = .eq := ArticleUuid.cmp_eq_trans h hk
      simp [hk, btreeMapLookup, hx]
    · by_cases hx : x.cmp p.1 = .eq
      · simp [hk, btreeMapLookup, hx]
      · simp [hk, btreeMapLookup, hx, ih]

/-- The fields of `feed_rs::model::Entry` (a parsed feed item) that the
conversion `impl From<feed_rs::model::Entry> for Article` reads. Categories
carry their optional label, links their href. -/
structure Item where
  id : Str
  updated : Option Time
  published : Option Time
  title : Option Str
  links : List Str
  summary : Option Str
  categories : List (Option Str)
deriving DecidableEq

/-- Struct `Article` (src/article.rs lines 51-62, identical in
src/subscription/article.rs). Timestamps are stored already rendered to a
display string. -/
structure Article where
  updated : Option Str
  published : Option Str
  id : Str
  title : Str
  links : List Str
  summary : Option Str
  categories : List Str
  belong_to : Option EntryUuid
  unread : Bool
deriving DecidableEq

/-- Placeholder title used when a fetched item has none (the string
No Title in src/article.rs line 79). -/
def noTitleStr : Str := ['N', 'o', ' ', 'T', 'i', 't', 'l', 'e']

/-- Function `utc_to_local_date_string` (src/article.rs lines 64-71). The
local-timezone formatting itself is environment-dependent, so it is taken as
a parameter `fmt`. -/
def utc_to_local_date_string (fmt : Time → Str) (time_utc : Option Time) : Option Str :=
  time_utc.map fmt

/-- Conversion `impl From<feed_rs::model::Entry> for Article`
(src/article.rs lines 73-93): default title, rendered timestamps, flattened
links, labels of labelled categories, `belong_to` empty, `unread` true. -/
def Article.fromItem (fmt : Time → Str) (value : Item) : Article :=
  { id := value.id
    title := value.title.getD noTitleStr
    updated := utc_to_local_date_string fmt value.updated
    links := value.links
    summary := value.summary
    categories := value.categories.filterMap (fun label => label)
    published := utc_to_local_date_string fmt value.published
    belong_to := none
    unread := true }

/-- Method `Article::set_belonging` (src/article.rs lines 97-100). -/
def Article.set_belonging (self : Article) (id : EntryUuid) : Article :=
  { self with belong_to := some id }

/-- One iteration of the merge loop in the sync completion callback of
`Feed::try_sync_entry_by_id` (src/feed.rs lines 501-518): build the
`ArticleUuid` for the item, and if no equal id is already in the entry's
article set, insert the id into the set and the converted `Article` (with
`belong_to` set to the owning entry) into the feed-wide article map.

Modelled from the spec for the id construction: the call in src/feed.rs
line 502 passes only the entry uuid and the item id, which does not match the
four-argument `ArticleUuid::new` of src/article.rs (the coherent version of
the function lives in the subscription module, absent from the sources);
following the spec, the id is derived from the item's timestamps, the owning
entry's uuid, and the item's per-feed string id. -/
def syncMergeItem (fmt : Time → Str) (entry_uuid : EntryUuid)
    (st : List ArticleUuid × List (ArticleUuid × Article)) (item : Item) :
    List ArticleUuid × List (ArticleUuid × Article) :=
  let article_id := ArticleUuid.new item.updated item.published entry_uuid item.id
  if btreeContains st.1 article_id then st
  else
    (btreeInsert st.1 article_id,
     btreeMapInsert st.2 article_id ((Article.fromItem fmt item).set_belonging entry_uuid))

/-- The whole merge loop of one sync completion: fold `syncMergeItem` over the
parsed items. -/
def syncMergeAll (fmt : Time → Str) (entry_uuid : EntryUuid)
    (items : List Item) (st : List ArticleUuid × List (ArticleUuid × Article)) :
    List ArticleUuid × List (ArticleUuid × Article) :=
  items.foldl (syncMergeItem fmt entry_uuid) st

/-- Result of the `ehttp::fetch` network call. -/
inductive FetchResult where
  | success (bytes : List Nat)
  | failure (err : Str)
deriving DecidableEq

/-- Panic message of the `expect` on the fetch result (src/feed.rs line 497). -/
def failedGetResponseMsg : Str :=
  ['F', 'a', 'i', 'l', 'e', 'd', ' ', 't', 'o', ' ', 'g', 'e', 't', ' ',
   'r', 'e', 's', 'p', 'o', 'n', 's', 'e', '.']

/-- Panic message of the `expect` on the parse result (src/feed.rs line 500). -/
def failedParseFeedMsg : Str :=
  ['F', 'a', 'i', 'l', 'e', 'd', ' ', 't', 'o', ' ', 'p', 'a', 'r', 's', 'e',
   ' ', 'f', 'e', 'e', 'd', '.']

/-- The completion callback of `Feed::try_sync_entry_by_id`
(src/feed.rs lines 495-519). `parseFeed` models `feed_rs::parser::parse_with_uri`
(an external collaborator; `none` is a parse failure). A panic (the `expect`
calls on the fetch result and on the parse result) is modelled as `.error`
carrying the panic message; `.ok` carries the entry's article-id set and the
feed-wide article map after the merge loop. -/
def try_sync_on_complete (parseFeed : List Nat → Option (List Item))
    (fmt : Time → Str) (entry_uuid : EntryUuid)
    (st : List ArticleUuid × List (ArticleUuid × Article)) (result : FetchResult) :
    Except Str (List ArticleUuid × List (ArticleUuid × Article)) :=
  match result with
  | .failure _ => .error failedGetResponseMsg
  | .success bytes =>
    match parseFeed bytes with
    | none => .error failedParseFeedMsg
    | some feedEntries => .ok (syncMergeAll fmt entry_uuid feedEntries st)

/-- Model of `HashSet<Uuid>::insert`: add the element unless present. -/
def listInsert (s : List Nat) (x : Nat) : List Nat :=
  if x ∈ s then s else s ++ [x]

/-- Model of `HashSet<Uuid>::remove`. -/
def listRemove (s : List Nat) (x : Nat) : List Nat :=
  s.filter (fun y => y != x)

/-- Model of `HashMap<Uuid, _>` lookup. -/
def mapLookup {α : Type} (m : List (Nat × α)) (k : Nat) : Option α :=
  match m with
  | [] => none
  | p :: t => if p.1 = k then some p.2 else mapLookup t k

/-- Model of `HashMap<Uuid, _>::insert`: replace the value at the key when
present, else add the pair. -/
def mapInsert {α : Type} (m : List (Nat × α)) (k : Nat) (v : α) : List (Nat × α) :=
  match m with
  | [] => [(k, v)]
  | p :: t => if p.1 = k then (k, v) :: t else p :: mapInsert t k v

/-- Model of `HashMap<Uuid, _>::remove`. -/
def mapRemove {α : Type} (m : List (Nat × α)) (k : Nat) : List (Nat × α) :=
  m.filter (fun p => p.1 != k)

theorem mem_listInsert_iff (s : List Nat) (x y : Nat) :
    y ∈ listInsert s x ↔ y ∈ s ∨ y = x := by
  unfold listInsert
  by_cases h : x ∈ s
  · simp only [if_pos h]
    constructor
    · exact Or.inl
    · rintro (hy | rfl)
      · exact hy
      · exact h
  · simp [if_neg h]

theorem mem_listInsert_self (s : List Nat) (x : Nat) : x ∈ listInsert s x :=
  (mem_listInsert_iff s x x).mpr (Or.inr rfl)

theorem mem_listRemove_iff (s : List Nat) (x y : Nat) :
    y ∈ listRemove s x ↔ y ∈ s ∧ y ≠ x := by
  simp [listRemove, List.mem_filter]

theorem not_mem_listRemove_self (s : List Nat) (x : Nat) : x ∉ listRemove s x := by
  intro h
  exact ((mem_listRemove_iff s x x).mp h).2 rfl

theorem mapLookup_mem {α : Type} {m : List (Nat × α)} {k : Nat} {v : α}
    (h : mapLookup m k = some v) : (k, v) ∈ m := by
  induction m with
  | nil => cases h
  | cons p t ih =>
    unfold mapLookup at h
    by_cases hp : p.1 = k
    · rw [if_pos hp] at h
      obtain ⟨p1, p2⟩ := p
      injection h with h2
      subst hp
      subst h2
      exact List.mem_cons_self _ _
    · rw [if_neg hp] at h
      exact List.mem_cons_of_mem _ (ih h)

theorem mapLookup_insert_self {α : Type} (m : List (Nat × α)) (k : Nat) (v : α) :
    mapLookup (mapInsert m k v) k = some v := by
  induction m with
  | nil => simp [mapInsert, mapLookup]
  | cons p t ih =>
    unfold mapInsert
    by_cases hp : p.1 = k
    · simp [hp, mapLookup]
    · simp [hp, mapLookup, ih]

theorem mapLookup_insert_ne {α : Type} (m : List (Nat × α)) (k j : Nat) (v : α)
    (h : j ≠ k) : mapLookup (mapInsert m k v) j = mapLookup m j := by
  have hkj : k ≠ j := fun hx => h hx.symm
  induction m with
  | nil => simp [mapInsert, mapLookup, hkj]
  | cons p t ih =>
    unfold mapInsert
    by_cases hp : p.1 = k
    · rw [if_pos hp]
      unfold mapLookup
      rw [if_neg hkj, if_neg (by rw [hp]; exact hkj)]
    · rw [if_neg hp]
      unfold mapLookup
      by_cases hj : p.1 = j
      · rw [if_pos hj, if_pos hj]
      · rw [if_neg hj, if_neg hj, ih]

theorem mapLookup_remove_self {α : Type} (m : List (Nat × α)) (k : Nat) :
    mapLookup (mapRemove m k) k = none := by
  induction m with
  | nil => rfl
  | cons p t ih =>
    unfold mapRemove
    rw [List.filter_cons]
    by_cases hp : p.1 = k
    · have hbf : (p.1 != k) = false := by simp [hp]
      rw [hbf]
      simp only [Bool.false_eq_true, if_false]
      exact ih
    · have hbt : (p.1 != k) = true := by simp [hp]
      rw [hbt]
      simp only [if_true]
      unfold mapLookup
      rw [if_neg hp]
      exact ih

theorem mapLookup_remove_ne {α : Type} (m : List (Nat × α)) (k j : Nat)
    (h : j ≠ k) : mapLookup (mapRemove m j) k = mapLookup m k := by
  induction m with
  | nil => rfl
  | cons p t ih =>
    unfold mapRemove
    rw [List.filter_cons]
    by_cases hp : p.1 = j
    · have hbf : (p.1 != j) = false := by simp [hp]
      rw [hbf]
      simp only [Bool.false_eq_true, if_false]
      have hpk : p.1 ≠ k := by rw [hp]; exact h
      conv_rhs => unfold mapLookup
      rw [if_neg hpk]
      exact ih
    · have hbt : (p.1 != j) = true := by simp [hp]
      rw [hbt]
      simp only [if_true]
      unfold mapLookup
      by_cases hk : p.1 = k
      · rw [if_pos hk, if_pos hk]
      · rw [if_neg hk, if_neg hk]
        exact ih

theorem mapInsert_lookup_eq_self {α : Type} {m : List (Nat × α)} {k : Nat} {v : α}
    (h : mapLookup m k = some v) : mapInsert m k v = m := by
  induction m with
  | nil => cases h
  | cons p t ih =>
    unfold mapInsert
    unfold mapLookup at h
    by_cases hp : p.1 = k
    · rw [if_pos hp] at h
      rw [if_pos hp]
      have hkv : (k, v) = p := by
        obtain ⟨p1, p2⟩ := p
        injection h with h2
        simp only at hp
        rw [← hp, ← h2]
      rw [hkv]
    · rw [if_neg hp] at h
      rw [if_neg hp, ih h]

theorem mapLookup_foldl_remove {α : Type} (l : List Nat) (m : List (Nat × α)) (k : Nat) :
    mapLookup (l.foldl (fun acc e => mapRemove acc e) m) k =
      if k ∈ l then none else mapLookup m k := by
  induction l generalizing m with
  | nil => simp
  | cons x t ih =>
    simp only [List.foldl_cons]
    by_cases hk : k ∈ x :: t
    · rw [if_pos hk]
      rcases List.mem_cons.mp hk with rfl | ht
      · by_cases ht2 : k ∈ t
        · rw [ih, if_pos ht2]
        · rw [ih, if_neg ht2, mapLookup_remove_self]
      · rw [ih, if_pos ht]
    · have hx : k ≠ x := fun hx => hk (hx ▸ List.mem_cons_self x t)
      have ht : k ∉ t := fun ht => hk (List.mem_cons_of_mem _ ht)
      rw [if_neg hk, ih, if_neg ht, mapLookup_remove_ne]
      exact fun hx2 => hx hx2.symm

/-- Struct `Entry` (src/feed.rs lines 64-82): one subscribed feed. The
`articles` set is the entry's `BTreeSet<ArticleUuid>`. -/
structure Entry where
  text : Str
  title : Option Str
  xml_url : Str
  html_url : Option Str
  articles : List ArticleUuid
  belong_to : Option FolderUuid
  uuid : EntryUuid
deriving DecidableEq

/-- Method `Entry::set_belonging` (src/feed.rs lines 109-112): set the
belonging attribute only, without touching any folder. -/
def Entry.set_belonging (self : Entry) (belong_to : FolderUuid) : Entry :=
  { self with belong_to := some belong_to }

/-- Struct `Folder` (src/feed.rs lines 150-161): a named container with the
`HashSet<EntryUuid>` of its member entries. -/
structure Folder where
  text : Str
  title : Option Str
  entries : List EntryUuid
  uuid : FolderUuid
deriving DecidableEq

/-- Struct `Feed` (src/feed.rs lines 242-256): the graph root owning the
orphan set, the entry map, the folder map and the feed-wide article map. -/
structure Feed where
  version : Str
  head : Option Str
  orphans : List EntryUuid
  entries_map : List (EntryUuid × Entry)
  folders_map : List (FolderUuid × Folder)
  articles_map : List (ArticleUuid × Article)
deriving DecidableEq

/-- Method `Feed::try_get_folder_by_id` (src/feed.rs lines 311-318);
`none` models `Err(NotFound)`. -/
def Feed.try_get_folder_by_id (f : Feed) (id : FolderUuid) : Option Folder :=
  mapLookup f.folders_map id

/-- Method `Feed::try_get_entry_by_id` (src/feed.rs lines 320-328). -/
def Feed.try_get_entry_by_id (f : Feed) (id : EntryUuid) : Option Entry :=
  mapLookup f.entries_map id

/-- Mutation of an entry through its `Rc<RefCell<_>>` handle, which is shared
with `entries_map`: modelled as updating the map in place. -/
def Feed.update_entry (f : Feed) (id : EntryUuid) (e : Entry) : Feed :=
  { f with entries_map := mapInsert f.entries_map id e }

/-- A folder with an entry id removed from its member set
(the `HashSet::remove` call on a folder's `entries`). -/
def Folder.withoutEntry (folder : Folder) (entry_id : EntryUuid) : Folder :=
  { folder with entries := listRemove folder.entries entry_id }

/-- A folder with an entry id inserted into its member set
(the `HashSet::insert` call on a folder's `entries`). -/
def Folder.withEntry (folder : Folder) (entry_id : EntryUuid) : Folder :=
  { folder with entries := listInsert folder.entries entry_id }

/-- Private method `Feed::try_remove_entry_id_from_folder_set`
(src/feed.rs lines 389-401): remove the entry id from the folder's member
set; the boolean is `Ok`/`Err` of the folder lookup. -/
def Feed.try_remove_entry_id_from_folder_set (f : Feed) (entry_id : EntryUuid)
    (old_folder_id : FolderUuid) : Feed × Bool :=
  match mapLookup f.folders_map old_folder_id with
  | none => (f, false)
  | some old_folder =>
    ({ f with folders_map :=
        mapInsert f.folders_map old_folder_id (old_folder.withoutEntry entry_id) }, true)

/-- Private method `Feed::try_add_entry_id_to_folder_set`
(src/feed.rs lines 403-415). -/
def Feed.try_add_entry_id_to_folder_set (f : Feed) (entry_id : EntryUuid)
    (new_folder_id : FolderUuid) : Feed × Bool :=
  match mapLookup f.folders_map new_folder_id with
  | none => (f, false)
  | some new_folder =>
    ({ f with folders_map :=
        mapInsert f.folders_map new_folder_id (new_folder.withEntry entry_id) }, true)

/-- Method `Feed::try_remove_entry_by_id` (src/feed.rs lines 332-346): look
the entry up (failing with `NotFound` when absent), remove its id from the
owning folder's set (discarding that call's `Result`) or from the orphan set,
then remove it from the entry map, returning the removed entry. -/
def Feed.try_remove_entry_by_id (f : Feed) (id : EntryUuid) : Feed × Option Entry :=
  match mapLookup f.entries_map id with
  | none => (f, none)
  | some e =>
    let f1 :=
      match e.belong_to with
      | some belong_to => (f.try_remove_entry_id_from_folder_set id belong_to).1
      | none => { f with orphans := listRemove f.orphans id }
    ({ f1 with entries_map := mapRemove f1.entries_map id }, some e)

/-- Method `Feed::try_remove_folder_by_id` (src/feed.rs lines 350-363): look
the folder up (failing with `NotFound` when absent), remove every member
entry from the entry map, then remove the folder itself. -/
def Feed.try_remove_folder_by_id (f : Feed) (id : FolderUuid) : Feed × Bool :=
  match mapLookup f.folders_map id with
  | none => (f, false)
  | some folder =>
    ({ f with
        entries_map := folder.entries.foldl (fun acc e => mapRemove acc e) f.entries_map,
        folders_map := mapRemove f.folders_map id }, true)

/-- Method `Feed::add_orphan_entry` (src/feed.rs lines 367-373): insert into
the entry map and the orphan set; always succeeds, returning the new id. -/
def Feed.add_orphan_entry (f : Feed) (entry : Entry) : Feed × EntryUuid :=
  ({ f with
      entries_map := mapInsert f.entries_map entry.uuid entry,
      orphans := listInsert f.orphans entry.uuid }, entry.uuid)

/-- Method `Feed::try_add_entry_to_folder` (src/feed.rs lines 377-387): set
the entry's belonging, insert it into the entry map, then insert its id into
the folder's member set. The code discards the `Result` of
`try_add_entry_id_to_folder_set` (line 385 has no question-mark operator), so
the function returns `Ok` unconditionally. -/
def Feed.try_add_entry_to_folder (f : Feed) (entry : Entry)
    (to_folder_uuid : FolderUuid) : Feed × Option EntryUuid :=
  let uuid := entry.uuid
  let f1 : Feed :=
    { f with entries_map := mapInsert f.entries_map uuid (entry.set_belonging to_folder_uuid) }
  ((f1.try_add_entry_id_to_folder_set uuid to_folder_uuid).1, some uuid)

/-- Method `Feed::try_move_entry_to_folder` (src/feed.rs lines 421-455): the
four-way transition on the matched pair (current belonging, target). An early
`Err` return caused by the question-mark operator leaves the mutations already
performed in place, which the state component records. -/
def Feed.try_move_entry_to_folder (f : Feed) (entry_id : EntryUuid)
    (to_folder_id : Option FolderUuid) : Feed × Bool :=
  match mapLookup f.entries_map entry_id with
  | none => (f, false)
  | some e =>
    match e.belong_to, to_folder_id with
    | some old_folder_id, some new_folder_id =>
      let r1 := f.try_remove_entry_id_from_folder_set entry_id old_folder_id
      if r1.2 then
        let r2 := r1.1.try_add_entry_id_to_folder_set entry_id new_folder_id
        if r2.2 then
          (r2.1.update_entry entry_id { e with belong_to := some new_folder_id }, true)
        else (r2.1, false)
      else (r1.1, false)
    | some old_folder_id, none =>
      let r1 := f.try_remove_entry_id_from_folder_set entry_id old_folder_id
      if r1.2 then
        (({ r1.1 with orphans := listInsert r1.1.orphans entry_id }).update_entry
            entry_id { e with belong_to := none }, true)
      else (r1.1, false)
    | none, some new_folder_id =>
      let f1 : Feed := { f with orphans := listRemove f.orphans entry_id }
      let r2 := f1.try_add_entry_id_to_folder_set entry_id new_folder_id
      if r2.2 then
        (r2.1.update_entry entry_id { e with belong_to := some new_folder_id }, true)
      else (r2.1, false)
    | none, none =>
      (f.update_entry entry_id { e with belong_to := none }, true)

/-- Decidable check of the graph invariants the specification states for
`Feed` (bidirectional membership and the orphan/member partition):
every id in a folder's member set resolves to an entry whose `belong_to` is
that folder; every entry is, according to its `belong_to` field, either in
its folder's member set or in the orphan set; every orphan id resolves to an
entry with empty `belong_to`. Together these clauses make the orphan set and
the folders' member sets a disjoint cover of the entry-id set. -/
def Feed.consistent (f : Feed) : Bool :=
  f.folders_map.all (fun p =>
    p.2.entries.all (fun eid =>
      match mapLookup f.entries_map eid with
      | some e => e.belong_to == some p.1
      | none => false))
  && f.entries_map.all (fun q =>
      match q.2.belong_to with
      | some fid =>
        match mapLookup f.folders_map fid with
        | some folder => folder.entries.contains q.1
        | none => false
      | none => f.orphans.contains q.1)
  && f.orphans.all (fun eid =>
      match mapLookup f.entries_map eid with
      | some e => e.belong_to == none
      | none => false)

theorem Feed.consistent_folder_mem {f : Feed} (hc : f.consistent = true)
    {fid : FolderUuid} {folder : Folder} (hf : mapLookup f.folders_map fid = some folder)
    {eid : EntryUuid} (he : eid ∈ folder.entries) :
    ∃ e, mapLookup f.entries_map eid = some e ∧ e.belong_to = some fid := by
  unfold Feed.consistent at hc
  rw [Bool.and_eq_true, Bool.and_eq_true] at hc
  obtain ⟨⟨h1, -⟩, -⟩ := hc
  rw [List.all_eq_true] at h1
  have hx := h1 _ (mapLookup_mem hf)
  rw [List.all_eq_true] at hx
  have hy := hx _ he
  cases hz : mapLookup f.entries_map eid with
  | none => rw [hz] at hy; cases hy
  | some e =>
    rw [hz] at hy
    simp only [beq_iff_eq] at hy
    exact ⟨e, rfl, hy⟩

theorem Feed.consistent_belong_some {f : Feed} (hc : f.consistent = true)
    {eid : EntryUuid} {e : Entry} {fid : FolderUuid}
    (he : mapLookup f.entries_map eid = some e) (hb : e.belong_to = some fid) :
    ∃ folder, mapLookup f.folders_map fid = some folder ∧ eid ∈ folder.entries := by
  unfold Feed.consistent at hc
  rw [Bool.and_eq_true, Bool.and_eq_true] at hc
  obtain ⟨⟨-, h2⟩, -⟩ := hc
  rw [List.all_eq_true] at h2
  have hx := h2 _ (mapLookup_mem he)
  simp only [hb] at hx
  cases hz : mapLookup f.folders_map fid with
  | none => rw [hz] at hx; cases hx
  | some folder =>
    rw [hz] at hx
    exact ⟨folder, rfl, List.mem_of_elem_eq_true hx⟩

theorem Feed.consistent_belong_none {f : Feed} (hc : f.consistent = true)
    {eid : EntryUuid} {e : Entry}
    (he : mapLookup f.entries_map eid = some e) (hb : e.belong_to = none) :
    eid ∈ f.orphans := by
  unfold Feed.consistent at hc
  rw [Bool.and_eq_true, Bool.and_eq_true] at hc
  obtain ⟨⟨-, h2⟩, -⟩ := hc
  rw [List.all_eq_true] at h2
  have hx := h2 _ (mapLookup_mem he)
  simp only [hb] at hx
  exact List.mem_of_elem_eq_true hx

theorem Feed.consistent_orphan {f : Feed} (hc : f.consistent = true)
    {eid : EntryUuid} (ho : eid ∈ f.orphans) :
    ∃ e, mapLookup f.entries_map eid = some e ∧ e.belong_to = none := by
  unfold Feed.consistent at hc
  rw [Bool.and_eq_true, Bool.and_eq_true] at hc
  obtain ⟨-, h3⟩ := hc
  rw [List.all_eq_true] at h3
  have hx := h3 _ ho
  cases hz : mapLookup f.entries_map eid with
  | none => rw [hz] at hx; cases hx
  | some e =>
    rw [hz] at hx
    simp only [beq_iff_eq] at hx
    exact ⟨e, rfl, hx⟩

theorem Feed.consistent_not_orphan {f : Feed} (hc : f.consistent = true)
    {eid : EntryUuid} {e : Entry} {fid : FolderUuid}
    (he : mapLookup f.entries_map eid = some e) (hb : e.belong_to = some fid) :
    eid ∉ f.orphans := by
  intro ho
  obtain ⟨e2, he2, hb2⟩ := Feed.consistent_orphan hc ho
  rw [he] at he2
  injection he2 with h3
  rw [← h3, hb] at hb2
  cases hb2

theorem Entry.update_belong_none_eq {e : Entry} (h : e.belong_to = none) :
    { e with belong_to := none } = e := by
  obtain ⟨t, ti, xu, hu, a, b, u⟩ := e
  simp only at h
  rw [h]

/-- Modelled from the spec: the per-entry synchronization state of the
engine. The version of `Feed::try_sync_entry_by_id` that tracks an
Idle/Syncing state and returns `Result<bool>` is the one declared by its
caller `RssClient::try_start_sync_entry` (src/utils.rs lines 561-563) and by
`RssClient::entry_is_syncing` (src/utils.rs lines 565-567); that function's
body (in the subscription module's feed source) is not among the source
files. `syncing` holds the ids of entries currently in the Syncing state,
`scheduled` records every fetch that has been issued, in order. -/
structure SyncState where
  syncing : List EntryUuid
  scheduled : List EntryUuid
deriving DecidableEq

/-- Modelled from the spec (section 4.2): `sync_entry_by_id`. Fails with
`NotFound` (`none`) when the id does not resolve; returns `some false`
without scheduling anything when a sync for the entry is already in flight;
otherwise marks the entry Syncing, schedules exactly one fetch, and returns
`some true`. -/
def sync_entry_by_id (f : Feed) (st : SyncState) (id : EntryUuid) :
    SyncState × Option Bool :=
  match mapLookup f.entries_map id with
  | none => (st, none)
  | some _ =>
    if id ∈ st.syncing then (st, some false)
    else ({ syncing := listInsert st.syncing id, scheduled := st.scheduled ++ [id] },
          some true)

/-- C1 counterexample: the comparator ignores `feed_id`, so two structurally
different `ArticleUuid` values that differ only in their owning feed compare
`Equal`. This falsifies the claim that the comparator returns `Equal` only for
structurally identical `ArticleUuid` values (and hence that it is a strict
total order on all `ArticleUuid` values). -/
theorem c1_cmp_counterexample :
    ArticleUuid.cmp { updated := none, published := none, feed_id := 1, id := [] }
        { updated := none, published := none, feed_id := 2, id := [] } = .eq ∧
    ({ updated := none, published := none, feed_id := 1, id := [] } : ArticleUuid) ≠
        { updated := none, published := none, feed_id := 2, id := [] } := by
  decide

/-- C1 (amended): the comparator on ArticleId compares `updated` descending
when both are present, else `published` descending when both `updated` are
absent and both `published` present; an ArticleId lacking any timestamp sorts
after one that has a timestamp; when both timestamps agree the tie-break is
lexical order of the per-feed string identifier. The owning feed id is never
compared, so the comparator returns Equal exactly when the two ArticleIds
agree on `updated`, `published` and the string identifier: it is a strict
total order (transitive, with Equal meaning equality) on the ArticleIds of a
single feed, but ArticleIds differing only in their feed id compare Equal. -/
theorem c1_comparator_amended :
    (∀ a b : ArticleUuid, a.feed_id = b.feed_id → (a.cmp b = .eq ↔ a = b)) ∧
    (∀ a b : ArticleUuid, a.cmp b = .eq ↔
        (a.updated = b.updated ∧ a.published = b.published ∧ a.id = b.id)) ∧
    (∀ a b : ArticleUuid, ∀ t1 t2 : Time, a.updated = some t1 → b.updated = some t2 →
        t2 < t1 → a.cmp b = .lt) ∧
    (∀ a b : ArticleUuid, ∀ t1 t2 : Time, a.updated = none → b.updated = none →
        a.published = some t1 → b.published = some t2 → t2 < t1 → a.cmp b = .lt) ∧
    (∀ a b : ArticleUuid, a.updated = none → a.published = none →
        (b.updated ≠ none ∨ b.published ≠ none) → b.cmp a = .lt) ∧
    (∀ a b : ArticleUuid, a.updated = b.updated → a.published = b.published →
        a.cmp b = cmpLin a.id b.id) ∧
    (∀ a b c : ArticleUuid, a.cmp b = .lt → b.cmp c = .lt → a.cmp c = .lt) ∧
    (∀ a b : ArticleUuid, a.cmp b = .gt ↔ b.cmp a = .lt) := by
  refine ⟨?_, ArticleUuid.cmp_eq_iff, ?_, ?_, ?_, ?_,
    fun a b c => ArticleUuid.cmp_lt_trans, ArticleUuid.cmp_gt_iff⟩
  · intro a b hf
    rw [ArticleUuid.cmp_eq_iff]
    constructor
    · rintro ⟨h1, h2, h3⟩
      obtain ⟨au, ap, af, ai⟩ := a
      obtain ⟨bu, bp, bf, bi⟩ := b
      simp only at h1 h2 h3 hf
      rw [h1, h2, h3, hf]
    · rintro rfl
      exact ⟨rfl, rfl, rfl⟩
  · intro a b t1 t2 ha hb ht
    have hcu : cmpOptTime b.updated a.updated = .lt := by
      rw [ha, hb]
      exact (cmpLin_lt_iff t2 t1).mpr ht
    unfold ArticleUuid.cmp
    rw [hcu]
  · intro a b t1 t2 hau hbu hap hbp ht
    have hcu : cmpOptTime b.updated a.updated = .eq := by rw [hau, hbu]; rfl
    have hcp : cmpOptTime b.published a.published = .lt := by
      rw [hap, hbp]
      exact (cmpLin_lt_iff t2 t1).mpr ht
    unfold ArticleUuid.cmp
    rw [hcu, hcp]
  · intro a b hau hap hne
    unfold ArticleUuid.cmp
    cases hbu : b.updated with
    | some t =>
      have hx : cmpOptTime a.updated (some t) = .lt := by rw [hau]; rfl
      rw [hx]
    | none =>
      have h1 : cmpOptTime a.updated none = .eq := by rw [hau]; rfl
      cases hbp : b.published with
      | none =>
        rcases hne with h | h
        · exact absurd hbu h
        · exact absurd hbp h
      | some t =>
        have h2 : cmpOptTime a.published (some t) = .lt := by rw [hap]; rfl
        rw [h1, h2]
  · intro a b hu hp
    have h1 : cmpOptTime b.updated a.updated = .eq := (cmpOptTime_eq_iff _ _).mpr hu.symm
    have h2 : cmpOptTime b.published a.published = .eq := (cmpOptTime_eq_iff _ _).mpr hp.symm
    unfold ArticleUuid.cmp
    rw [h1, h2]

/-- Witness for the amended C1 theorem at concrete inputs: an article updated
at time 5 sorts strictly before one updated at time 3 in the same feed. -/
theorem c1_witness :
    ArticleUuid.cmp { updated := some 5, published := none, feed_id := 1, id := [] }
        { updated := some 3, published := none, feed_id := 1, id := [] } = .lt :=
  c1_comparator_amended.2.2.1
    { updated := some 5, published := none, feed_id := 1, id := [] }
    { updated := some 3, published := none, feed_id := 1, id := [] }
    5 3 rfl rfl (by decide)

/-- Example timestamp formatter for witnesses. -/
def exFmt : Time → Str := fun _ => []

/-- Example fetched item for witnesses. -/
def exItem : Item :=
  { id := [], updated := none, published := none, title := none,
    links := [], summary := none, categories := [] }

/-- C2: during a sync completion each item is keyed by an ArticleId built
from the item's timestamps, the owning entry's uuid and the per-feed string
id, and inserted into the entry's article set exactly when no structurally
equal ArticleId is already present (given that, as the merge maintains, every
id in the set carries the owning entry's uuid); re-processing the same item is
the identity on the set and the article map (idempotent merge, so size and
order are unchanged). -/
theorem c2_sync_merge_dedup (fmt : Time → Str) (u : EntryUuid) (item : Item)
    (s : List ArticleUuid) (m : List (ArticleUuid × Article))
    (hs : ∀ b ∈ s, b.feed_id = u) :
    (ArticleUuid.new item.updated item.published u item.id ∈ s →
        syncMergeItem fmt u (s, m) item = (s, m)) ∧
    (ArticleUuid.new item.updated item.published u item.id ∉ s →
        (syncMergeItem fmt u (s, m) item).1
            = btreeInsert s (ArticleUuid.new item.updated item.published u item.id) ∧
        ArticleUuid.new item.updated item.published u item.id
            ∈ (syncMergeItem fmt u (s, m) item).1) ∧
    syncMergeItem fmt u (syncMergeItem fmt u (s, m) item) item
        = syncMergeItem fmt u (s, m) item := by
  have hContains : btreeContains s (ArticleUuid.new item.updated item.published u item.id)
      = true ↔ ArticleUuid.new item.updated item.published u item.id ∈ s := by
    constructor
    · intro h
      obtain ⟨b, hb, heq⟩ :=
        (btreeContains_iff s (ArticleUuid.new item.updated item.published u item.id)).mp h
      obtain ⟨h1, h2, h3⟩ := (ArticleUuid.cmp_eq_iff _ _).mp heq
      have hfb : b.feed_id = u := hs b hb
      obtain ⟨bu, bp, bf, bi⟩ := b
      simp only [ArticleUuid.new] at h1 h2 h3
      simp only at hfb
      rw [ArticleUuid.new, h1, h2, h3, ← hfb]
      exact hb
    · exact btreeContains_of_mem
  refine ⟨?_, ?_, ?_⟩
  · intro hmem
    have hct := btreeContains_of_mem hmem
    simp [syncMergeItem, hct]
  · intro hmem
    have hcf : btreeContains s (ArticleUuid.new item.updated item.published u item.id)
        = false := by
      cases hcc : btreeContains s (ArticleUuid.new item.updated item.published u item.id)
      · rfl
      · exact absurd (hContains.mp hcc) hmem
    constructor
    · simp [syncMergeItem, hcf]
    · simp only [syncMergeItem, hcf]
      simp only [Bool.false_eq_true, if_false]
      exact mem_btreeInsert_self hcf
  · cases hcc : btreeContains s (ArticleUuid.new item.updated item.published u item.id) with
    | true => simp [syncMergeItem, hcc]
    | false =>
      simp only [syncMergeItem, hcc]
      simp only [Bool.false_eq_true, if_false]
      simp [btreeContains_btreeInsert_self]

/-- Witness for C2 at concrete inputs: merging the example item twice into an
empty article collection equals merging it once. -/
theorem c2_witness :
    syncMergeItem exFmt 1 (syncMergeItem exFmt 1 ([], []) exItem) exItem
        = syncMergeItem exFmt 1 ([], []) exItem :=
  (c2_sync_merge_dedup exFmt 1 exItem [] [] (by simp)).2.2

/-- C9 counterexample: at a failed HTTP fetch the completion callback of
`Feed::try_sync_entry_by_id` panics (the `expect` on the result, modelled as
`.error` with the panic message) instead of aborting silently, so the claim
that a failed sync completion never panics and resets a per-entry sync state
to Idle does not hold of this code (which tracks no sync state at all). -/
theorem c9_counterexample :
    try_sync_on_complete (fun _ => none) exFmt 1 ([], []) (.failure []) =
      .error failedGetResponseMsg := rfl

/-- C9 (amended): for every sync completion whose HTTP fetch failed, or whose
body fails to parse as a feed document, the completion callback aborts by
panicking (modelled as `.error` with the corresponding `expect` message)
before touching the entry's article set or the feed-wide article map; no
article data is changed, and there is no per-entry sync state to reset. -/
theorem c9_failure_aborts (parseFeed : List Nat → Option (List Item))
    (fmt : Time → Str) (u : EntryUuid)
    (st : List ArticleUuid × List (ArticleUuid × Article)) :
    (∀ e, try_sync_on_complete parseFeed fmt u st (.failure e)
        = .error failedGetResponseMsg) ∧
    (∀ bytes, parseFeed bytes = none →
        try_sync_on_complete parseFeed fmt u st (.success bytes)
          = .error failedParseFeedMsg) := by
  constructor
  · intro e
    rfl
  · intro bytes h
    simp [try_sync_on_complete, h]

/-- Witness for the amended C9 theorem: a concrete unparsable response panics
with the parse message. -/
theorem c9_witness :
    try_sync_on_complete (fun _ => none) exFmt 1 ([], []) (.success [])
        = .error failedParseFeedMsg :=
  (c9_failure_aborts (fun _ => none) exFmt 1 ([], [])).2 [] rfl

/-- C10: when the sync merge inserts an ArticleUuid into the entry's article
set, it simultaneously inserts under that key, into the feed-wide article
map, the converted article with `belong_to` the owning entry's uuid and
`unread` true; and across a whole completion, if every id in the set resolved
in the map before, every id in the set resolves in the map after (the
per-entry listings never dangle). -/
theorem c10_sync_inserts_resolve (fmt : Time → Str) (u : EntryUuid) :
    (∀ (item : Item) (s : List ArticleUuid) (m : List (ArticleUuid × Article)),
      btreeContains s (ArticleUuid.new item.updated item.published u item.id) = false →
        btreeMapLookup (syncMergeItem fmt u (s, m) item).2
            (ArticleUuid.new item.updated item.published u item.id)
          = some ((Article.fromItem fmt item).set_belonging u) ∧
        ((Article.fromItem fmt item).set_belonging u).belong_to = some u ∧
        ((Article.fromItem fmt item).set_belonging u).unread = true ∧
        ArticleUuid.new item.updated item.published u item.id
          ∈ (syncMergeItem fmt u (s, m) item).1) ∧
    (∀ (items : List Item) (st : List ArticleUuid × List (ArticleUuid × Article)),
      (∀ x, btreeContains st.1 x = true → (btreeMapLookup st.2 x).isSome = true) →
      ∀ x, btreeContains (syncMergeAll fmt u items st).1 x = true →
        (btreeMapLookup (syncMergeAll fmt u items st).2 x).isSome = true) := by
  constructor
  · intro item s m h
    refine ⟨?_, rfl, rfl, ?_⟩
    · simp only [syncMergeItem, h]
      simp only [Bool.false_eq_true, if_false]
      exact btreeMapLookup_insert_self m _ _
    · simp only [syncMergeItem, h]
      simp only [Bool.false_eq_true, if_false]
      exact mem_btreeInsert_self h
  · intro items
    induction items with
    | nil =>
      intro st hinv x hx
      exact hinv x hx
    | cons item t ih =>
      intro st hinv x hx
      rw [show syncMergeAll fmt u (item :: t) st
            = syncMergeAll fmt u t (syncMergeItem fmt u st item) from rfl] at hx ⊢
      refine ih (syncMergeItem fmt u st item) ?_ x hx
      intro y hy
      cases hcc : btreeContains st.1
          (ArticleUuid.new item.updated item.published u item.id) with
      | true =>
        rw [show syncMergeItem fmt u st item = st from by simp [syncMergeItem, hcc]] at hy ⊢
        exact hinv y hy
      | false =>
        have hpair : syncMergeItem fmt u st item
            = (btreeInsert st.1 (ArticleUuid.new item.updated item.published u item.id),
               btreeMapInsert st.2 (ArticleUuid.new item.updated item.published u item.id)
                 ((Article.fromItem fmt item).set_belonging u)) := by
          simp [syncMergeItem, hcc]
        rw [hpair] at hy ⊢
        obtain ⟨b, hb, heq⟩ := (btreeContains_iff _ _).mp hy
        rcases mem_of_mem_btreeInsert hb with hbs | rfl
        · have hys : btreeContains st.1 y = true := (btreeContains_iff _ _).mpr ⟨b, hbs, heq⟩
          exact btreeMapLookup_insert_isSome _ _ (hinv y hys)
        · exact btreeMapLookup_insert_of_cmp_eq _ _ heq

/-- Witness for C10 at concrete inputs: merging the example item into an empty
collection records it in both the set and the map, belonging to entry 1 and
unread. -/
theorem c10_witness :
    btreeMapLookup (syncMergeItem exFmt 1 ([], []) exItem).2
        (ArticleUuid.new exItem.updated exItem.published 1 exItem.id)
      = some ((Article.fromItem exFmt exItem).set_belonging 1) ∧
    ((Article.fromItem exFmt exItem).set_belonging 1).belong_to = some 1 ∧
    ((Article.fromItem exFmt exItem).set_belonging 1).unread = true ∧
    ArticleUuid.new exItem.updated exItem.published 1 exItem.id
      ∈ (syncMergeItem exFmt 1 ([], []) exItem).1 :=
  (c10_sync_inserts_resolve exFmt 1).1 exItem [] [] rfl

/-- Feed with one entry (uuid 3) used by the C8 witness. -/
def c8Entry : Entry :=
  { text := [], title := none, xml_url := [], html_url := none,
    articles := [], belong_to := none, uuid := 3 }

/-- Feed holding `c8Entry` as an orphan. -/
def c8Feed : Feed :=
  { version := [], head := none, orphans := [3],
    entries_map := [(3, c8Entry)], folders_map := [], articles_map := [] }

/-- C8 (spec-modelled): `sync_entry_by_id` returns whether a new sync was
started: when a prior sync for the entry is still in flight it returns false
and changes nothing (in particular it schedules no second fetch); for an idle
entry it returns true, marks the entry Syncing and schedules exactly one
fetch. -/
theorem c8_sync_idempotent (f : Feed) (st : SyncState) (id : EntryUuid) (e : Entry)
    (he : mapLookup f.entries_map id = some e) :
    (id ∈ st.syncing → sync_entry_by_id f st id = (st, some false)) ∧
    (id ∉ st.syncing →
      (sync_entry_by_id f st id).2 = some true ∧
      (sync_entry_by_id f st id).1.scheduled = st.scheduled ++ [id] ∧
      id ∈ (sync_entry_by_id f st id).1.syncing) := by
  constructor
  · intro h
    simp [sync_entry_by_id, he, h]
  · intro h
    refine ⟨?_, ?_, ?_⟩ <;> simp [sync_entry_by_id, he, h, mem_listInsert_self]

/-- Witness for C8: a second call for entry 3 while it is Syncing returns
false and leaves the state (and so the scheduled fetches) unchanged. -/
theorem c8_witness :
    sync_entry_by_id c8Feed { syncing := [3], scheduled := [3] } 3
        = ({ syncing := [3], scheduled := [3] }, some false) :=
  (c8_sync_idempotent c8Feed { syncing := [3], scheduled := [3] } 3 c8Entry rfl).1
    (by decide)

/-- The empty feed graph. -/
def emptyFeed : Feed :=
  { version := [], head := none, orphans := [],
    entries_map := [], folders_map := [], articles_map := [] }

/-- Fresh entry (uuid 1) used by the C3 evaluation. -/
def c3Entry : Entry :=
  { text := [], title := none, xml_url := [], html_url := none,
    articles := [], belong_to := none, uuid := 1 }

/-- C3: evaluation of the code at the failing input. On the empty (hence
consistent) graph, `try_add_entry_to_folder` with the unresolvable folder id 7
reports success and leaves the graph inconsistent: the entry sits in the
entry map with `belong_to` pointing at a folder that does not exist, in no
folder's member set and not in the orphan set, so the bidirectional-membership
and partition invariants are both violated after one operation. -/
theorem c3_invariant_broken_by_add :
    emptyFeed.consistent = true ∧
    (emptyFeed.try_add_entry_to_folder c3Entry 7).2 = some 1 ∧
    (emptyFeed.try_add_entry_to_folder c3Entry 7).1.consistent = false := by
  decide

/-- Folder (uuid 5) present in the C4 evaluation feed. -/
def c4Folder : Folder :=
  { text := [], title := none, entries := [], uuid := 5 }

/-- Feed owning only folder 5, used by the C4 evaluation. -/
def c4Feed : Feed :=
  { version := [], head := none, orphans := [],
    entries_map := [], folders_map := [(5, c4Folder)], articles_map := [] }

/-- Fresh entry (uuid 2) used by the C4 evaluation. -/
def c4Entry : Entry :=
  { text := [], title := none, xml_url := [], html_url := none,
    articles := [], belong_to := none, uuid := 2 }

/-- C4: evaluation of the code at the failing input. Folder id 9 does not
resolve, yet `try_add_entry_to_folder` returns `Ok` (`some 2`) — the discarded
`Result` of `try_add_entry_id_to_folder_set` — and the entry is inserted into
the entry map with `belong_to = Some(9)` while no folder member set changes:
the operation neither fails with NotFound nor keeps the two updates together. -/
theorem c4_add_entry_missing_folder :
    mapLookup c4Feed.folders_map 9 = none ∧
    (c4Feed.try_add_entry_to_folder c4Entry 9).2 = some 2 ∧
    mapLookup (c4Feed.try_add_entry_to_folder c4Entry 9).1.entries_map 2
      = some (c4Entry.set_belonging 9) ∧
    (c4Feed.try_add_entry_to_folder c4Entry 9).1.folders_map = c4Feed.folders_map := by
  decide

/-- Orphan entry (uuid 3) used by the C5 evaluation. -/
def c5Entry : Entry :=
  { text := [], title := none, xml_url := [], html_url := none,
    articles := [], belong_to := none, uuid := 3 }

/-- Feed owning the orphan entry 3 and no folders, used by the C5 evaluation. -/
def c5Feed : Feed :=
  { version := [], head := none, orphans := [3],
    entries_map := [(3, c5Entry)], folders_map := [], articles_map := [] }

/-- C5: evaluation of the code at the failing input. Moving orphan entry 3 to
the unresolvable folder 9 fails with NotFound (`false`) as claimed, but the
graph is not left as it was: the entry id has already been removed from the
orphan set before the failing folder lookup, so entry 3 is in no container at
all and the failed move has mutated the graph. -/
theorem c5_failed_move_mutates :
    (c5Feed.try_move_entry_to_folder 3 (some 9)).2 = false ∧
    (c5Feed.try_move_entry_to_folder 3 (some 9)).1 ≠ c5Feed ∧
    c5Feed.orphans = [3] ∧
    (c5Feed.try_move_entry_to_folder 3 (some 9)).1.orphans = [] ∧
    c5Feed.consistent = true ∧
    (c5Feed.try_move_entry_to_folder 3 (some 9)).1.consistent = false := by
  decide

/-- C7: `try_remove_folder_by_id` fails with NotFound (and changes nothing)
when the folder id is absent; otherwise it reports success, removes the
folder, hard-deletes every member entry from the entry map, and leaves the
orphan set untouched (no demotion to orphan). `try_remove_entry_by_id` on an
orphan entry returns the entry, removes it from the entry map and the orphan
set, and leaves the folder map untouched. -/
theorem c7_remove_folder_cascade (f : Feed) :
    (∀ fid, mapLookup f.folders_map fid = none →
        f.try_remove_folder_by_id fid = (f, false)) ∧
    (∀ fid folder, mapLookup f.folders_map fid = some folder →
        (f.try_remove_folder_by_id fid).2 = true ∧
        mapLookup (f.try_remove_folder_by_id fid).1.folders_map fid = none ∧
        (∀ eid ∈ folder.entries,
          mapLookup (f.try_remove_folder_by_id fid).1.entries_map eid = none) ∧
        (f.try_remove_folder_by_id fid).1.orphans = f.orphans) ∧
    (∀ eid e, mapLookup f.entries_map eid = some e → e.belong_to = none →
        (f.try_remove_entry_by_id eid).2 = some e ∧
        mapLookup (f.try_remove_entry_by_id eid).1.entries_map eid = none ∧
        eid ∉ (f.try_remove_entry_by_id eid).1.orphans ∧
        (f.try_remove_entry_by_id eid).1.folders_map = f.folders_map) := by
  refine ⟨?_, ?_, ?_⟩
  · intro fid h
    simp [Feed.try_remove_folder_by_id, h]
  · intro fid folder h
    refine ⟨?_, ?_, ?_, ?_⟩
    · simp [Feed.try_remove_folder_by_id, h]
    · simp [Feed.try_remove_folder_by_id, h, mapLookup_remove_self]
    · intro eid hmem
      simp only [Feed.try_remove_folder_by_id, h]
      rw [mapLookup_foldl_remove, if_pos hmem]
    · simp [Feed.try_remove_folder_by_id, h]
  · intro eid e he hb
    refine ⟨?_, ?_, ?_, ?_⟩
    · simp [Feed.try_remove_entry_by_id, he, hb]
    · simp [Feed.try_remove_entry_by_id, he, hb, mapLookup_remove_self]
    · simp only [Feed.try_remove_entry_by_id, he, hb]
      exact not_mem_listRemove_self f.orphans eid
    · simp [Feed.try_remove_entry_by_id, he, hb]

/-- Entry (uuid 4) belonging to folder 5, used by the C7 witness. -/
def c7Entry : Entry :=
  { text := [], title := none, xml_url := [], html_url := none,
    articles := [], belong_to := some 5, uuid := 4 }

/-- Folder (uuid 5) owning entry 4, used by the C7 witness. -/
def c7Folder : Folder :=
  { text := [], title := none, entries := [4], uuid := 5 }

/-- Feed with folder 5 owning entry 4, used by the C7 witness. -/
def c7Feed : Feed :=
  { version := [], head := none, orphans := [],
    entries_map := [(4, c7Entry)], folders_map := [(5, c7Folder)], articles_map := [] }

/-- Witness for C7: deleting folder 5 hard-deletes its member entry 4 from the
entry map and leaves the orphan set untouched. -/
theorem c7_witness :
    mapLookup (c7Feed.try_remove_folder_by_id 5).1.entries_map 4 = none ∧
    (c7Feed.try_remove_folder_by_id 5).1.orphans = c7Feed.orphans :=
  ⟨((c7_remove_folder_cascade c7Feed).2.1 5 c7Folder rfl).2.2.1 4 (by decide),
   ((c7_remove_folder_cascade c7Feed).2.1 5 c7Folder rfl).2.2.2⟩

theorem remove_set_eq {f : Feed} {eid : EntryUuid} {old : FolderUuid} {ofold : Folder}
    (hof : mapLookup f.folders_map old = some ofold) :
    f.try_remove_entry_id_from_folder_set eid old =
      ({ f with folders_map := mapInsert f.folders_map old (ofold.withoutEntry eid) }, true) := by
  simp [Feed.try_remove_entry_id_from_folder_set, hof]

theorem add_set_eq {f : Feed} {eid : EntryUuid} {nf : FolderUuid} {nfold : Folder}
    (hnf : mapLookup f.folders_map nf = some nfold) :
    f.try_add_entry_id_to_folder_set eid nf =
      ({ f with folders_map := mapInsert f.folders_map nf (nfold.withEntry eid) }, true) := by
  simp [Feed.try_add_entry_id_to_folder_set, hnf]

theorem mem_withEntry (folder : Folder) (eid : EntryUuid) :
    eid ∈ (folder.withEntry eid).entries :=
  mem_listInsert_self folder.entries eid

theorem not_mem_withoutEntry (folder : Folder) (eid : EntryUuid) :
    eid ∉ (folder.withoutEntry eid).entries :=
  not_mem_listRemove_self folder.entries eid

/-- C6: on a consistent graph a successful `try_move_entry_to_folder` performs
exactly the four-way transition. Moving an entry into a resolving folder `nf`
succeeds and leaves the entry's `belong_to` at `Some nf`, its id in `nf`'s
member set, absent from the orphan set, and absent from the previous folder's
set (when that folder differs from `nf`). Moving an entry owned by a folder to
`None` succeeds and leaves `belong_to` at `None`, the id in the orphan set and
in no folder's member set. Moving an orphan to `None` is a no-op that
succeeds. -/
theorem c6_move_entry_four_way (f : Feed) (eid : EntryUuid) (e : Entry)
    (hc : f.consistent = true) (he : mapLookup f.entries_map eid = some e) :
    (∀ nf nfold, mapLookup f.folders_map nf = some nfold →
      ((f.try_move_entry_to_folder eid (some nf)).2 = true ∧
       mapLookup (f.try_move_entry_to_folder eid (some nf)).1.entries_map eid
         = some { e with belong_to := some nf } ∧
       (∃ fold2, mapLookup (f.try_move_entry_to_folder eid (some nf)).1.folders_map nf
           = some fold2 ∧ eid ∈ fold2.entries) ∧
       eid ∉ (f.try_move_entry_to_folder eid (some nf)).1.orphans ∧
       (∀ old ofold2, e.belong_to = some old → old ≠ nf →
         mapLookup (f.try_move_entry_to_folder eid (some nf)).1.folders_map old
           = some ofold2 → eid ∉ ofold2.entries))) ∧
    (∀ old, e.belong_to = some old →
      ((f.try_move_entry_to_folder eid none).2 = true ∧
       mapLookup (f.try_move_entry_to_folder eid none).1.entries_map eid
         = some { e with belong_to := none } ∧
       eid ∈ (f.try_move_entry_to_folder eid none).1.orphans ∧
       (∀ fid fold2, mapLookup (f.try_move_entry_to_folder eid none).1.folders_map fid
           = some fold2 → eid ∉ fold2.entries))) ∧
    (e.belong_to = none → f.try_move_entry_to_folder eid none = (f, true)) := by
  refine ⟨?_, ?_, ?_⟩
  · -- move into folder nf
    intro nf nfold hnf
    cases hb : e.belong_to with
    | none =>
      have hmove : f.try_move_entry_to_folder eid (some nf) =
          (({ f with
              orphans := listRemove f.orphans eid,
              folders_map :=
                mapInsert f.folders_map nf (nfold.withEntry eid) }).update_entry
              eid { e with belong_to := some nf }, true) := by
        simp only [Feed.try_move_entry_to_folder, he, hb]
        have hadd : ({ f with orphans := listRemove f.orphans eid } :
              Feed).try_add_entry_id_to_folder_set eid nf =
            (({ f with
                orphans := listRemove f.orphans eid,
                folders_map :=
                  mapInsert f.folders_map nf (nfold.withEntry eid) } : Feed), true) :=
          add_set_eq hnf
        rw [hadd]
        rfl
      rw [hmove]
      refine ⟨rfl, ?_, ?_, ?_, ?_⟩
      · exact mapLookup_insert_self _ _ _
      · exact ⟨nfold.withEntry eid, mapLookup_insert_self _ _ _, mem_withEntry nfold eid⟩
      · exact not_mem_listRemove_self _ _
      · intro old ofold2 hbold
        exact Option.noConfusion hbold
    | some old =>
      obtain ⟨ofold, hof, -⟩ := Feed.consistent_belong_some hc he hb
      have hno : eid ∉ f.orphans := Feed.consistent_not_orphan hc he hb
      by_cases heq : nf = old
      · -- moving within the same folder: remove then re-insert
        subst heq
        have hfold : nfold = ofold := by
          rw [hnf] at hof
          exact Option.some.inj hof
        subst hfold
        have hmove : f.try_move_entry_to_folder eid (some nf) =
            (({ f with
                folders_map :=
                mapInsert (mapInsert f.folders_map nf (nfold.withoutEntry eid)) nf
                  ((nfold.withoutEntry eid).withEntry eid) }).update_entry
                eid { e with belong_to := some nf }, true) := by
          simp only [Feed.try_move_entry_to_folder, he, hb]
          have hrem : f.try_remove_entry_id_from_folder_set eid nf =
              (({ f with
                folders_map :=
                  mapInsert f.folders_map nf (nfold.withoutEntry eid) } : Feed), true) :=
            remove_set_eq hnf
          have hadd : ({ f with
                folders_map :=
                  mapInsert f.folders_map nf (nfold.withoutEntry eid) } :
                Feed).try_add_entry_id_to_folder_set eid nf =
              (({ f with
                folders_map :=
                  mapInsert (mapInsert f.folders_map nf (nfold.withoutEntry eid)) nf
                    ((nfold.withoutEntry eid).withEntry eid) } : Feed), true) :=
            add_set_eq (mapLookup_insert_self _ _ _)
          rw [hrem, hadd]
          rfl
        rw [hmove]
        refine ⟨rfl, ?_, ?_, ?_, ?_⟩
        · exact mapLookup_insert_self _ _ _
        · exact ⟨_, mapLookup_insert_self _ _ _, mem_withEntry _ eid⟩
        · exact hno
        · intro old0 ofold2 hbold hneq hlook
          injection hbold with hx
          exact absurd hx.symm hneq
      · -- distinct folders
        have hmove : f.try_move_entry_to_folder eid (some nf) =
            (({ f with
                folders_map :=
                mapInsert (mapInsert f.folders_map old (ofold.withoutEntry eid)) nf
                  (nfold.withEntry eid) }).update_entry
                eid { e with belong_to := some nf }, true) := by
          simp only [Feed.try_move_entry_to_folder, he, hb]
          have hrem : f.try_remove_entry_id_from_folder_set eid old =
              (({ f with
                folders_map :=
                  mapInsert f.folders_map old (ofold.withoutEntry eid) } : Feed), true) :=
            remove_set_eq hof
          have hnf2 : mapLookup (mapInsert f.folders_map old (ofold.withoutEntry eid)) nf
              = some nfold := by
            rw [mapLookup_insert_ne _ _ _ _ heq]
            exact hnf
          have hadd : ({ f with
                folders_map :=
                  mapInsert f.folders_map old (ofold.withoutEntry eid) } :
                Feed).try_add_entry_id_to_folder_set eid nf =
              (({ f with
                folders_map :=
                  mapInsert (mapInsert f.folders_map old (ofold.withoutEntry eid)) nf
                    (nfold.withEntry eid) } : Feed), true) :=
            add_set_eq hnf2
          rw [hrem, hadd]
          rfl
        rw [hmove]
        refine ⟨rfl, ?_, ?_, ?_, ?_⟩
        · exact mapLookup_insert_self _ _ _
        · exact ⟨nfold.withEntry eid, mapLookup_insert_self _ _ _, mem_withEntry nfold eid⟩
        · exact hno
        · intro old0 ofold2 hbold hneq hlook
          injection hbold with hx
          subst hx
          simp only [Feed.update_entry] at hlook
          rw [mapLookup_insert_ne _ _ _ _ hneq, mapLookup_insert_self] at hlook
          injection hlook with hy
          rw [← hy]
          exact not_mem_withoutEntry ofold eid
  · -- move to none from a folder
    intro old hbold
    obtain ⟨ofold, hof, -⟩ := Feed.consistent_belong_some hc he hbold
    have hmove : f.try_move_entry_to_folder eid none =
        (({ f with
            folders_map := mapInsert f.folders_map old (ofold.withoutEntry eid),
            orphans := listInsert f.orphans eid }).update_entry
            eid { e with belong_to := none }, true) := by
      simp only [Feed.try_move_entry_to_folder, he, hbold]
      have hrem : f.try_remove_entry_id_from_folder_set eid old =
          (({ f with
                folders_map :=
              mapInsert f.folders_map old (ofold.withoutEntry eid) } : Feed), true) :=
        remove_set_eq hof
      rw [hrem]
      rfl
    rw [hmove]
    refine ⟨rfl, ?_, ?_, ?_⟩
    · exact mapLookup_insert_self _ _ _
    · exact mem_listInsert_self _ _
    · intro fid fold2 hlook
      by_cases hfid : fid = old
      · subst hfid
        simp only [Feed.update_entry] at hlook
        rw [mapLookup_insert_self] at hlook
        injection hlook with hy
        rw [← hy]
        exact not_mem_withoutEntry ofold eid
      · simp only [Feed.update_entry] at hlook
        rw [mapLookup_insert_ne _ _ _ _ hfid] at hlook
        intro hmem
        obtain ⟨e2, he2, hb2⟩ := Feed.consistent_folder_mem hc hlook hmem
        rw [he] at he2
        injection he2 with hx
        rw [← hx, hbold] at hb2
        injection hb2 with hy
        exact hfid hy.symm
  · -- orphan moved to none: no-op
    intro hb
    have hstep : f.try_move_entry_to_folder eid none
        = (f.update_entry eid { e with belong_to := none }, true) := by
      simp only [Feed.try_move_entry_to_folder, he, hb]
    rw [hstep, Entry.update_belong_none_eq hb]
    unfold Feed.update_entry
    rw [mapInsert_lookup_eq_self he]

/-- Entry (uuid 6) that is an orphan in the C6 witness feed. -/
def c6Entry : Entry :=
  { text := [], title := none, xml_url := [], html_url := none,
    articles := [], belong_to := none, uuid := 6 }

/-- Folder (uuid 8), initially empty, in the C6 witness feed. -/
def c6Folder : Folder :=
  { text := [], title := none, entries := [], uuid := 8 }

/-- Feed with orphan entry 6 and empty folder 8, used by the C6 witness. -/
def c6Feed : Feed :=
  { version := [], head := none, orphans := [6],
    entries_map := [(6, c6Entry)], folders_map := [(8, c6Folder)], articles_map := [] }

/-- Witness for C6: moving orphan entry 6 into folder 8 succeeds, sets its
belonging, puts it in folder 8's member set and takes it out of the orphan
set. -/
theorem c6_witness :
    (c6Feed.try_move_entry_to_folder 6 (some 8)).2 = true ∧
    mapLookup (c6Feed.try_move_entry_to_folder 6 (some 8)).1.entries_map 6
      = some { c6Entry with belong_to := some 8 } ∧
    6 ∉ (c6Feed.try_move_entry_to_folder 6 (some 8)).1.orphans := by
  have h := (c6_move_entry_four_way c6Feed 6 c6Entry (by decide) rfl).1 8 c6Folder rfl
  exact ⟨h.1, h.2.1, h.2.2.2.1⟩

end RSSucks
